import Mathlib

/-!
Verification of the juju-swift CSV migration scripts.

The repository has two Python scripts:
* `Refactor Plans/ActionMilestoneBoolean_Restructured/migrate_sessions.py`
  (the "add-variant"): appends derived `action` / `is_milestone` columns
  computed from a `milestone_text` column.
* `migrate_remove_milestone_text.py` (the "drop-variant"): removes the
  `milestone_text` column.

This file gives a shallow embedding of the CSV layer (Python's `csv.reader`
and `csv.writer` with the default dialect), of both per-file migrations, and
of the batch drivers and script entry points, and proves or refutes the frozen
claims about them.
-/

namespace JujuSwift

/-! ## CSV core

Models Python's `csv` module with the default dialect: delimiter `,`,
quote char `"`, doubled-quote escaping, `QUOTE_MINIMAL`, line terminator
`"\r\n"` on write, `\r` / `\n` / `\r\n` accepted as record ends on read.
A record is a list of fields; fields are raw strings.
-/

/-- Characters that force quoting under `QUOTE_MINIMAL`: the delimiter, the
quote character, and the characters of the line terminator. -/
def isSpecialChar (c : Char) : Bool :=
  c = ',' || c = '"' || c = '\r' || c = '\n'

/-- Whether `csv.writer` quotes this field under `QUOTE_MINIMAL`. -/
def needsQuote (s : String) : Bool := s.data.any isSpecialChar

/-- Double every quote character (the writer's escaping inside quoted fields). -/
def escQ : List Char → List Char
  | [] => []
  | c :: t => if c = '"' then '"' :: '"' :: escQ t else c :: escQ t

/-- Serialization of a single field by `csv.writer` (`QUOTE_MINIMAL`). -/
def renderFieldChars (s : String) : List Char :=
  if needsQuote s then '"' :: (escQ s.data ++ ['"']) else s.data

/-- Join already-rendered fields with the `,` delimiter. -/
def joinComma : List (List Char) → List Char
  | [] => []
  | [f] => f
  | f :: g :: t => f ++ ',' :: joinComma (g :: t)

/-- Serialization of one record by `csv.writer.writerow`, including the
`"\r\n"` terminator.  A record consisting of a single empty field is written
as `""` so that it stays distinguishable from the empty record. -/
def renderRowChars (r : List String) : List Char :=
  (if r = [""] then ['"', '"'] else joinComma (r.map renderFieldChars)) ++ ['\r', '\n']

/-- Serialization of a whole table by `csv.writer.writerows`. -/
def csvRenderChars (rows : List (List String)) : List Char :=
  (rows.map renderRowChars).flatten

/-- The exact file content written by `csv.writer.writerows`. -/
def csvRender (rows : List (List String)) : String :=
  ⟨csvRenderChars rows⟩

/-- The record emitted at an end of line: a blank line yields the empty
record, any other state yields the accumulated fields plus the current one. -/
def emitRec (rec : List (List Char)) (field : List Char) (started : Bool) :
    List (List Char) :=
  if rec = [] ∧ field = [] ∧ started = false then [] else rec ++ [field]

/-- Reader states, mirroring the state machine of Python's `csv.reader`:
`plain` outside quotes, `quoted` inside a quoted field, `quoteSeen` inside a
quoted field right after a quote character (either the escape half of a
doubled quote or the closing quote), `afterCR` right after a record-ending
carriage return (so that a following line feed is swallowed). -/
inductive RMode
  | plain
  | quoted
  | quoteSeen
  | afterCR
deriving DecidableEq

/-- State machine of Python's `csv.reader`: one character per step.  `field`
is the current field, `started` records whether the current field has consumed
any character (distinguishes the empty record from a record holding one empty
quoted field), `rec` holds the completed fields of the current record. -/
def pAux : List Char → RMode → List Char → Bool → List (List Char) →
    List (List (List Char))
  | [], .quoted, field, _, rec => [rec ++ [field]]
  | [], .quoteSeen, field, _, rec => [rec ++ [field]]
  | [], .afterCR, _, _, _ => []
  | [], .plain, field, started, rec =>
      if rec = [] ∧ field = [] ∧ started = false then [] else [rec ++ [field]]
  | c :: rest, .quoted, field, _, rec =>
      if c = '"' then pAux rest .quoteSeen field true rec
      else pAux rest .quoted (field ++ [c]) true rec
  | c :: rest, .quoteSeen, field, _, rec =>
      if c = '"' then pAux rest .quoted (field ++ ['"']) true rec
      else if c = ',' then pAux rest .plain [] false (rec ++ [field])
      else if c = '\r' then (rec ++ [field]) :: pAux rest .afterCR [] false []
      else if c = '\n' then (rec ++ [field]) :: pAux rest .plain [] false []
      else pAux rest .plain (field ++ [c]) true rec
  | c :: rest, .afterCR, field, started, rec =>
      if c = '\n' then pAux rest .plain field started rec
      else if c = ',' then pAux rest .plain [] false (rec ++ [field])
      else if c = '\r' then emitRec rec field started :: pAux rest .afterCR [] false []
      else if c = '"' then
        if field = [] ∧ started = false then pAux rest .quoted [] true rec
        else pAux rest .plain (field ++ ['"']) true rec
      else pAux rest .plain (field ++ [c]) true rec
  | c :: rest, .plain, field, started, rec =>
      if c = ',' then pAux rest .plain [] false (rec ++ [field])
      else if c = '\r' then emitRec rec field started :: pAux rest .afterCR [] false []
      else if c = '\n' then emitRec rec field started :: pAux rest .plain [] false []
      else if c = '"' then
        if field = [] ∧ started = false then pAux rest .quoted [] true rec
        else pAux rest .plain (field ++ ['"']) true rec
      else pAux rest .plain (field ++ [c]) true rec

/-- Parse raw characters into records (Python `list(csv.reader(f))`). -/
def csvParseChars (cs : List Char) : List (List (List Char)) :=
  pAux cs .plain [] false []

/-- Parse a file's content into records of string fields. -/
def csvParse (s : String) : List (List String) :=
  (csvParseChars s.data).map (fun r => r.map fun f => ⟨f⟩)

example : csvParse "a,b\r\n\r\nc\r\n" = [["a", "b"], [], ["c"]] := by rfl

example :
    csvRender [[""], [], ["", ""], ["a", ""]] = "\"\"\r\n\r\n,\r\na,\r\n" := by rfl

example :
    csvParse (csvRender [[""], [], ["", ""], ["a,b", "q\"x", "l\nm", "r\rs"], ["plain"]]) =
      [[""], [], ["", ""], ["a,b", "q\"x", "l\nm", "r\rs"], ["plain"]] := by rfl

/-! ## Drop-variant: `migrate_remove_milestone_text.py`

`migrate_csv_file` reads a file with `csv.reader`, skips it when it is empty
or its header lacks `milestone_text`, otherwise removes the column at the
header's first `milestone_text` index from the header and from every data row
long enough to have that index, then rewrites the file.  `None` models the
paths that return `False` without writing. -/

def migrate_csv_file (rows : List (List String)) : Option (List (List String)) :=
  match rows with
  | [] => none
  | header :: rest =>
    if "milestone_text" ∈ header then
      let i := header.indexOf "milestone_text"
      some ((header.take i ++ header.drop (i + 1)) ::
        rest.map (fun r => if i < r.length then r.take i ++ r.drop (i + 1) else r))
    else none

/-- The drop-variant applied to raw file lines: the script does no blank-line
skipping, it hands the whole file straight to `csv.reader`. -/
def migrate_csv_file_lines (lines : List String) : Option (List (List String)) :=
  migrate_csv_file (csvParse (String.join (lines.map (· ++ "\n"))))

/-! ## Add-variant: `migrate_sessions.py`

Rows are handled through `csv.DictReader` / `csv.DictWriter`, so the model
carries Python dicts as insertion-ordered association lists from column name
to `Option String` (`none` models Python `None`, the `DictReader` filler for
missing trailing fields). -/

/-- An insertion-ordered Python dict from field name to value. -/
abbrev Dict := List (String × Option String)

/-- Python dict assignment `d[k] = v`: replace in place if the key exists,
append otherwise. -/
def dictInsert (d : Dict) (k : String) (v : Option String) : Dict :=
  if d.any (fun p => p.1 == k) then d.map (fun p => if p.1 == k then (k, v) else p)
  else d ++ [(k, v)]

/-- `csv.DictReader` row construction with explicit `fieldnames`:
`dict(zip(fieldnames, row))`, then every fieldname beyond the row's length is
filled with the `restval` `None`. -/
def mkDict (fieldnames row : List String) : Dict :=
  (fieldnames.drop row.length).foldl (fun d k => dictInsert d k none)
    ((fieldnames.zip row).foldl (fun d kv => dictInsert d kv.1 (some kv.2)) [])

/-- Python dict lookup collapsed to `Option`: `none` when the key is absent
or its stored value is `None`. -/
def dictGet (d : Dict) (k : String) : Option String :=
  match d.find? (fun p => p.1 == k) with
  | some kv => kv.2
  | none => none

/-- Python `str.strip()` restricted to ASCII whitespace, implemented over the
character list so that it reduces in the kernel. -/
def pyStrip (s : String) : String :=
  ⟨((s.data.dropWhile Char.isWhitespace).reverse.dropWhile Char.isWhitespace).reverse⟩

/-- Python `str.lower()` (ASCII), implemented over the character list so that
it reduces in the kernel. -/
def pyLower (s : String) : String :=
  ⟨s.data.map Char.toLower⟩

/-- The source's case-insensitive scan: the value of the first key whose
lowercasing is `milestone_text`, `none` when no key matches or the value is
`None`. -/
def milestoneLookup (d : Dict) : Option String :=
  match d.find? (fun p => pyLower p.1 == "milestone_text") with
  | some kv => kv.2
  | none => none

/-- The per-row transform of `migrate_sessions`: copy the row, then set
`action` and `is_milestone` from the case-insensitively matched
`milestone_text` value (`if milestone_text and milestone_text.strip()`). -/
def transformRow (d : Dict) : Dict :=
  match milestoneLookup d with
  | some s =>
      if s ≠ "" ∧ pyStrip s ≠ "" then
        dictInsert (dictInsert d "action" (some (pyStrip s))) "is_milestone" (some "1")
      else
        dictInsert (dictInsert d "action" (some "")) "is_milestone" (some "0")
  | none => dictInsert (dictInsert d "action" (some "")) "is_milestone" (some "0")

/-- `csv.DictWriter._dict_to_list`: one output field per fieldname, looked up
in the dict, with the `restval` `""` for absent keys; the writer also turns a
stored `None` into the empty field. -/
def renderDictRow (fieldnames : List String) (d : Dict) : List String :=
  fieldnames.map (fun k => (dictGet d k).getD "")

/-- Outcome of processing one file in the add-variant: `written` with the
logical rows handed to `DictWriter`, `skipped` for the no-write early returns,
`failed` for the paths that raise (caught by the per-file handler). -/
inductive FileOutcome
  | written (rows : List (List String))
  | skipped
  | failed
deriving DecidableEq

/-- The core of `migrate_sessions` on the parsed records of one cleaned file:
skip when there is no header or the header already has both `action` and
`is_milestone`; otherwise hand every non-blank record — the header record
included, because `DictReader` is given explicit `fieldnames` — to the row
transform and write them under the extended header.  A record longer than the
header makes `DictWriter` raise (`failed`). -/
def migrate_sessions_rows (records : List (List String)) : FileOutcome :=
  match records with
  | [] => .skipped
  | header :: rest =>
    if "action" ∈ header ∧ "is_milestone" ∈ header then .skipped
    else if ((header :: rest).filter (fun r => !r.isEmpty)).isEmpty then .skipped
    else if ((header :: rest).filter (fun r => !r.isEmpty)).any
        (fun r => decide (header.length < r.length)) then .failed
    else .written ((header ++ ["action", "is_milestone"]) ::
      ((header :: rest).filter (fun r => !r.isEmpty)).map
        (fun r => renderDictRow (header ++ ["action", "is_milestone"])
          (transformRow (mkDict header r))))

/-- `clean_csv_file_content`: index of the first line whose `strip()` is
non-empty. -/
def firstNonBlank : List String → Option Nat
  | [] => none
  | l :: t => if pyStrip l = "" then (firstNonBlank t).map (· + 1) else some 0

/-- `clean_csv_file_content`: drop the leading blank lines, also returning how
many were dropped; `([], length)` when every line is blank. -/
def clean_csv_file_content (lines : List String) : List String × Nat :=
  match firstNonBlank lines with
  | some n => (lines.drop n, n)
  | none => ([], lines.length)

/-- The add-variant applied to one file's raw lines: clean the leading blank
lines (the re-read inside the source skips exactly that many lines again),
parse, and run the row migration. -/
def migrate_sessions_file (lines : List String) : FileOutcome :=
  migrate_sessions_rows
    (csvParse (String.join ((clean_csv_file_content lines).1.map (· ++ "\n"))))

/-! ## Batch drivers and script entry points -/

/-- A file in the data directory: either its lines are readable or any
attempt to process it raises (I/O error, malformed content). -/
inductive PyFile
  | ok (lines : List String)
  | readError
deriving DecidableEq

/-- Drop-variant per-file call as seen by its batch loop: `migrate_csv_file`
catches every exception internally and returns `False`. -/
def dropProcessFile : PyFile → Bool
  | .readError => false
  | .ok lines => (migrate_csv_file_lines lines).isSome

/-- The drop script's `successful` tally over the discovered files. -/
def dropBatchSuccessCount (files : List PyFile) : Nat :=
  files.countP dropProcessFile

/-- Add-variant per-file step: the `try/except/continue` in the loop of
`migrate_sessions` turns any raising file into a logged failure. -/
def addProcessFile : PyFile → FileOutcome
  | .readError => .failed
  | .ok lines => migrate_sessions_file lines

/-- The add-variant batch loop: every discovered file is processed in order,
failures included. -/
def addBatch (files : List PyFile) : List FileOutcome :=
  files.map addProcessFile

/-- Observable end state of a script run: the process exit status and whether
a diagnostic message was printed. -/
structure ScriptResult where
  exitCode : Nat
  diagnostic : Bool
deriving DecidableEq

/-- `migrate_remove_milestone_text.main`: a missing data directory or an empty
glob prints a message and plain-`return`s; `sys.exit` is never called, so the
process exit status is 0 on every path. -/
def dropScriptRun (dirExists : Bool) (files : List PyFile) : ScriptResult :=
  if !dirExists then ⟨0, true⟩
  else if files.isEmpty then ⟨0, true⟩
  else ⟨0, false⟩

/-- The `__main__` block of `migrate_sessions.py`: wrong argument count or a
path that is not a directory prints an error and calls `sys.exit(1)`;
otherwise the migration runs and the script finishes with status 0. -/
def addScriptRun (argcIsTwo : Bool) (pathIsDir : Bool) : ScriptResult :=
  if !argcIsTwo then ⟨1, true⟩
  else if !pathIsDir then ⟨1, true⟩
  else ⟨0, false⟩

example :
    migrate_sessions_file ["id,milestone_text", "1, hi ", "2,"] =
      .written [["id", "milestone_text", "action", "is_milestone"],
        ["id", "milestone_text", "milestone_text", "1"],
        ["1", " hi ", "hi", "1"], ["2", "", "", "0"]] := by rfl

example :
    migrate_csv_file [["id", "milestone_text", "note"], ["1", "hit 10k", "ok"]] =
      some [["id", "note"], ["1", "ok"]] := by rfl

example : migrate_sessions_file ["", "  ", "id,Milestone_Text", "1,x"] =
    migrate_sessions_file ["id,Milestone_Text", "1,x"] := by rfl

/-! ## Helper lemmas -/

theorem dictInsert_of_forall_ne (d : Dict) (k : String) (v : Option String)
    (h : ∀ p ∈ d, p.1 ≠ k) : dictInsert d k v = d ++ [(k, v)] := by
  have hany : d.any (fun p => p.1 == k) = false := by
    simp only [List.any_eq_false, beq_iff_eq]
    exact h
  simp [dictInsert, hany]

theorem indexOf_eq_of_first (l : List String) (a : String) :
    ∀ i, l[i]? = some a → (∀ j, j < i → l[j]? ≠ some a) → l.indexOf a = i := by
  induction l with
  | nil => intro i h1 _; simp at h1
  | cons b t ih =>
    intro i h1 h2
    cases i with
    | zero =>
      simp only [List.getElem?_cons_zero, Option.some.injEq] at h1
      subst h1
      simp [List.indexOf_cons_self]
    | succ j =>
      have hb : b ≠ a := by
        intro hba
        exact h2 0 (Nat.succ_pos j) (by simp [hba])
      rw [List.indexOf_cons_ne _ hb]
      have := ih j (by simpa using h1)
        (fun k hk => by
          have := h2 (k + 1) (Nat.succ_lt_succ hk)
          simpa using this)
      omega

theorem count_remove_first (l : List String) (a : String) (h : a ∈ l) :
    (l.take (l.indexOf a) ++ l.drop (l.indexOf a + 1)).count a = l.count a - 1 := by
  induction l with
  | nil => cases h
  | cons b t ih =>
    by_cases hb : b = a
    · subst hb
      simp [List.indexOf_cons_self, List.count_cons_self]
    · have hmem : a ∈ t := by
        cases h with
        | head => exact absurd rfl hb
        | tail _ h => exact h
      rw [List.indexOf_cons_ne _ hb]
      simp only [List.take_succ_cons, List.drop_succ_cons, List.cons_append,
        List.count_cons, List.count_cons]
      have hba : (b == a) = false := by simpa using hb
      rw [ih hmem]
      simp [hba]

theorem clean_fst_eq_dropWhile (lines : List String) :
    (clean_csv_file_content lines).1 = lines.dropWhile (fun l => pyStrip l == "") := by
  induction lines with
  | nil => rfl
  | cons l t ih =>
    by_cases hl : pyStrip l = ""
    · rw [List.dropWhile_cons_of_pos (by simpa using hl)]
      rw [← ih]
      simp only [clean_csv_file_content, firstNonBlank, if_pos hl]
      cases hft : firstNonBlank t with
      | none => simp [hft]
      | some n => simp [hft]
    · rw [List.dropWhile_cons_of_neg (by simpa using hl)]
      simp [clean_csv_file_content, firstNonBlank, hl]

/-! ## Claims -/

/-- C1: refuted by the code — the add-variant does not preserve the data-row
count.  Because `DictReader` is handed explicit `fieldnames`, the header line
is re-read as a data row (the source's own comment expects `DictReader` to
"read its own header"), so a table with one data row is written back with two:
the header's fields run through the transform, then the real row. -/
theorem add_variant_header_becomes_data_row :
    migrate_sessions_file ["id,milestone_text", "1,hello"] =
      .written [["id", "milestone_text", "action", "is_milestone"],
        ["id", "milestone_text", "milestone_text", "1"],
        ["1", "hello", "hello", "1"]] := by rfl

/-- C6 corrected: only the add-variant exits with status 1 on an invalid
directory.  The drop-variant prints its diagnostic and plain-returns from
`main`, so its process exit status is 0 even when the data directory is
missing; the add-variant exits 1 on a non-directory path and 0 otherwise. -/
theorem exit_codes_amended :
    (∀ files, dropScriptRun false files = ⟨0, true⟩)
    ∧ addScriptRun true false = ⟨1, true⟩
    ∧ addScriptRun true true = ⟨0, false⟩ :=
  ⟨fun _ => rfl, rfl, rfl⟩

/-- C6 counterexample: with the data directory missing the drop-variant's
process exit status is 0, not 1 as claimed (a diagnostic is still printed). -/
theorem drop_script_missing_dir_exits_zero :
    (dropScriptRun false []).exitCode = 0 ∧ ¬((dropScriptRun false []).exitCode = 1)
    ∧ (dropScriptRun false []).diagnostic = true := by
  refine ⟨rfl, by decide, rfl⟩

/-- C7: a failing file is caught at its own boundary: every later file of the
batch is processed exactly as it otherwise would be, and the failed file
contributes nothing to the drop script's success tally. -/
theorem batch_error_isolation :
    ∀ fs1 fs2 : List PyFile,
      dropBatchSuccessCount (fs1 ++ PyFile.readError :: fs2) =
        dropBatchSuccessCount fs1 + dropBatchSuccessCount fs2
      ∧ addBatch (fs1 ++ PyFile.readError :: fs2) =
        addBatch fs1 ++ FileOutcome.failed :: addBatch fs2 := by
  intro fs1 fs2
  constructor
  · simp [dropBatchSuccessCount, List.countP_append, List.countP_cons, dropProcessFile]
  · simp [addBatch, addProcessFile]

/-- C2 amended: on a row whose keys do not already include the two target
columns, the add-variant's transform returns the row itself with `action` and
`is_milestone` appended in that order — the trimmed `milestone_text` value and
`"1"` when the first case-insensitively matching field is non-blank after
trimming, `""` and `"0"` when it is blank or absent.  The `milestone_text`
field itself stays in place and nothing is removed or reordered.  (Rows that
already carry a target field are processed too, but there Python's dict
assignment overwrites the field in place instead of appending — see the
counterexample.) -/
theorem add_transform_appends_action_and_flag (d : Dict)
    (ha : ∀ p ∈ d, p.1 ≠ "action") (hm : ∀ p ∈ d, p.1 ≠ "is_milestone") :
    (∀ s, milestoneLookup d = some s → pyStrip s ≠ "" →
      transformRow d = d ++ [("action", some (pyStrip s)), ("is_milestone", some "1")])
    ∧ (∀ s, milestoneLookup d = some s → pyStrip s = "" →
      transformRow d = d ++ [("action", some ""), ("is_milestone", some "0")])
    ∧ (milestoneLookup d = none →
      transformRow d = d ++ [("action", some ""), ("is_milestone", some "0")]) := by
  have step : ∀ v w : Option String,
      dictInsert (dictInsert d "action" v) "is_milestone" w =
        d ++ [("action", v), ("is_milestone", w)] := by
    intro v w
    rw [dictInsert_of_forall_ne d "action" v ha]
    rw [dictInsert_of_forall_ne _ "is_milestone" w]
    · simp
    · intro p hp
      rcases List.mem_append.mp hp with hpd | hpa
      · exact hm p hpd
      · simp only [List.mem_singleton] at hpa
        subst hpa
        show "action" ≠ "is_milestone"
        decide
  refine ⟨?_, ?_, ?_⟩
  · intro s hs hstrip
    have hne : s ≠ "" := by
      intro h0
      subst h0
      exact hstrip rfl
    simp only [transformRow, hs, if_pos (And.intro hne hstrip)]
    exact step _ _
  · intro s hs hstrip
    have : ¬(s ≠ "" ∧ pyStrip s ≠ "") := by
      intro hc
      exact hc.2 hstrip
    simp only [transformRow, hs, if_neg this]
    exact step _ _
  · intro hs
    simp only [transformRow, hs]
    exact step _ _

/-- C2 counterexample: a row the add-variant does process — its header holds
`action` but not `is_milestone`, so the already-migrated check does not fire —
is not mapped to "the input row with `action` and `is_milestone` appended":
Python's `new_row['action'] = ...` overwrites the existing `action` field in
place (its value `x` is lost), and only `is_milestone` is appended. -/
theorem add_transform_overwrites_existing_action :
    migrate_sessions_rows [["action", "milestone_text"], ["x", "hello"]] =
      .written [["action", "milestone_text", "action", "is_milestone"],
        ["milestone_text", "milestone_text", "milestone_text", "1"],
        ["hello", "hello", "hello", "1"]]
    ∧ transformRow (mkDict ["action", "milestone_text"] ["x", "hello"]) =
      [("action", some "hello"), ("milestone_text", some "hello"),
        ("is_milestone", some "1")]
    ∧ transformRow (mkDict ["action", "milestone_text"] ["x", "hello"]) ≠
      mkDict ["action", "milestone_text"] ["x", "hello"] ++
        [("action", some "hello"), ("is_milestone", some "1")] := by
  refine ⟨rfl, rfl, by decide⟩

/-- C2 witness: a concrete row with a mixed-case `Milestone_Text` key whose
value trims to `hi`. -/
theorem add_transform_appends_action_and_flag_witness :
    transformRow [("id", some "1"), ("Milestone_Text", some " hi ")] =
      [("id", some "1"), ("Milestone_Text", some " hi "),
        ("action", some "hi"), ("is_milestone", some "1")] := by
  rw [(add_transform_appends_action_and_flag
      [("id", some "1"), ("Milestone_Text", some " hi ")]
      (by decide) (by decide)).1 " hi " rfl (by decide)]
  rfl

/-- C3: when `milestone_text` first occurs at index `i` of the header, the
drop-variant removes index `i` from the header and from every row with more
than `i` fields, and passes shorter rows through unchanged. -/
theorem drop_variant_removes_positional_index
    (header : List String) (rest : List (List String)) (i : Nat)
    (h1 : header[i]? = some "milestone_text")
    (h2 : ∀ j, j < i → header[j]? ≠ some "milestone_text") :
    migrate_csv_file (header :: rest) =
      some ((header.take i ++ header.drop (i + 1)) ::
        rest.map (fun r => if i < r.length then r.take i ++ r.drop (i + 1) else r)) := by
  have hmem : "milestone_text" ∈ header := by
    have hi : i < header.length := by
      by_contra hle
      rw [List.getElem?_eq_none (by omega)] at h1
      exact Option.noConfusion h1
    have := List.getElem?_eq_getElem hi
    rw [this] at h1
    rw [← Option.some.inj h1]
    exact List.getElem_mem hi
  have hidx : header.indexOf "milestone_text" = i := indexOf_eq_of_first header _ i h1 h2
  simp [migrate_csv_file, hmem, hidx]

/-- C3 witness: `milestone_text` at index 1, one long row and one short row. -/
theorem drop_variant_removes_positional_index_witness :
    migrate_csv_file [["id", "milestone_text", "note"], ["1", "x", "ok"], ["2"]] =
      some [["id", "note"], ["1", "ok"], ["2"]] := by
  rw [drop_variant_removes_positional_index ["id", "milestone_text", "note"]
      [["1", "x", "ok"], ["2"]] 1 (by decide) (by decide)]
  rfl

/-- C10: when the header holds `milestone_text` more than once, the
drop-variant removes exactly the first occurrence (index `indexOf`) from the
header and from each sufficiently long row, and a later occurrence survives in
the output header. -/
theorem drop_variant_keeps_later_duplicates
    (header : List String) (rest : List (List String))
    (h : 2 ≤ header.count "milestone_text") :
    migrate_csv_file (header :: rest) =
      some ((header.take (header.indexOf "milestone_text") ++
          header.drop (header.indexOf "milestone_text" + 1)) ::
        rest.map (fun r =>
          if header.indexOf "milestone_text" < r.length then
            r.take (header.indexOf "milestone_text") ++
              r.drop (header.indexOf "milestone_text" + 1)
          else r))
    ∧ "milestone_text" ∈ header.take (header.indexOf "milestone_text") ++
        header.drop (header.indexOf "milestone_text" + 1) := by
  have hmem : "milestone_text" ∈ header := by
    have : 0 < header.count "milestone_text" := by omega
    exact List.count_pos_iff.mp this
  constructor
  · simp [migrate_csv_file, hmem]
  · have hc := count_remove_first header "milestone_text" hmem
    have : 0 < (header.take (header.indexOf "milestone_text") ++
        header.drop (header.indexOf "milestone_text" + 1)).count "milestone_text" := by
      omega
    exact List.count_pos_iff.mp this

/-- C10 witness: a header with two `milestone_text` columns; only the first is
dropped, from the header and the long row alike. -/
theorem drop_variant_keeps_later_duplicates_witness :
    migrate_csv_file [["x", "milestone_text", "milestone_text"], ["1", "2", "3"]] =
      some [["x", "milestone_text"], ["1", "3"]]
    ∧ "milestone_text" ∈ (["x", "milestone_text"] : List String) := by
  obtain ⟨h1, h2⟩ := drop_variant_keeps_later_duplicates
    ["x", "milestone_text", "milestone_text"] [["1", "2", "3"]] (by decide)
  constructor
  · rw [h1]; rfl
  · simp only [show (["x", "milestone_text", "milestone_text"] : List String).indexOf
        "milestone_text" = 1 from rfl] at h2
    exact h2

/-- C4 amended: a second add-variant run after a successful (writing) first
run always skips, because the written header carries both target columns; a
second drop-variant run after a successful first run skips provided the input
header held `milestone_text` at most once — with duplicated columns the second
run strips another occurrence (see the counterexample). -/
theorem migrations_idempotent_amended :
    (∀ recs out, migrate_sessions_rows recs = .written out →
      migrate_sessions_rows out = .skipped)
    ∧ (∀ (header : List String) rest out, header.count "milestone_text" ≤ 1 →
      migrate_csv_file (header :: rest) = some out →
      migrate_csv_file out = none) := by
  constructor
  · intro recs out h
    match recs with
    | [] => simp [migrate_sessions_rows] at h
    | header :: rest =>
      rw [migrate_sessions_rows] at h
      split at h
      · exact absurd h (by simp)
      · split at h
        · exact absurd h (by simp)
        · split at h
          · exact absurd h (by simp)
          · have hout := (FileOutcome.written.injEq _ _).mp h
            rw [← hout, migrate_sessions_rows]
            rw [if_pos]
            constructor <;> simp
  · intro header rest out hcount h
    rw [migrate_csv_file] at h
    split at h
    · rename_i hmem
      have hout := (Option.some.injEq _ _).mp h
      have hzero : (header.take (header.indexOf "milestone_text") ++
          header.drop (header.indexOf "milestone_text" + 1)).count "milestone_text" = 0 := by
        rw [count_remove_first header _ hmem]
        have : 0 < header.count "milestone_text" := List.count_pos_iff.mpr hmem
        omega
      have hnm : "milestone_text" ∉ header.take (header.indexOf "milestone_text") ++
          header.drop (header.indexOf "milestone_text" + 1) := by
        intro hc
        have := List.count_pos_iff.mpr hc
        omega
      rw [← hout, migrate_csv_file]
      rw [if_neg hnm]
    · exact absurd h (by simp)

/-- C4 witness: a second add-variant run on the output of a writing first run
skips, and a second drop-variant run on the output of a unique-column first
run skips. -/
theorem migrations_idempotent_amended_witness :
    migrate_sessions_rows [["id", "milestone_text", "action", "is_milestone"],
        ["id", "milestone_text", "milestone_text", "1"], ["1", "hi", "hi", "1"]] = .skipped
    ∧ migrate_csv_file [["id"], ["1"]] = none := by
  constructor
  · exact migrations_idempotent_amended.1 [["id", "milestone_text"], ["1", "hi"]]
      [["id", "milestone_text", "action", "is_milestone"],
        ["id", "milestone_text", "milestone_text", "1"], ["1", "hi", "hi", "1"]] (by rfl)
  · exact migrations_idempotent_amended.2 ["id", "milestone_text"] [["1", "x"]]
      [["id"], ["1"]] (by decide) (by rfl)

/-- C4 counterexample: with a header holding `milestone_text` twice, the first
drop-variant run succeeds, and the second run is not a no-op — it removes the
surviving occurrence and rewrites the file with different content. -/
theorem drop_variant_second_run_rewrites :
    migrate_csv_file [["milestone_text", "milestone_text"], ["a", "b"]] =
      some [["milestone_text"], ["b"]]
    ∧ migrate_csv_file [["milestone_text"], ["b"]] = some [[], []]
    ∧ ([["milestone_text"], ["b"]] : List (List String)) ≠ [[], []] := by
  refine ⟨rfl, rfl, by decide⟩

/-- C5 amended: the add-variant is insensitive to leading blank lines —
prepending any number of empty or whitespace-only lines to a file leaves its
migration outcome unchanged.  The drop-variant has no such tolerance (see the
counterexample). -/
theorem add_variant_blank_line_tolerance :
    ∀ blanks rest : List String, (∀ l ∈ blanks, pyStrip l = "") →
      migrate_sessions_file (blanks ++ rest) = migrate_sessions_file rest := by
  intro blanks rest hb
  have hdw : (blanks ++ rest).dropWhile (fun l => pyStrip l == "") =
      rest.dropWhile (fun l => pyStrip l == "") := by
    rw [List.dropWhile_append]
    have hnil : blanks.dropWhile (fun l => pyStrip l == "") = [] := by
      rw [List.dropWhile_eq_nil_iff]
      intro x hx
      simpa using hb x hx
    simp [hnil]
  rw [migrate_sessions_file, migrate_sessions_file,
    clean_fst_eq_dropWhile, clean_fst_eq_dropWhile, hdw]

/-- C5 witness: one empty and one whitespace-only leading line change nothing
about the add-variant's result. -/
theorem add_variant_blank_line_tolerance_witness :
    migrate_sessions_file ["", " ", "id,milestone_text", "1,x"] =
      migrate_sessions_file ["id,milestone_text", "1,x"] :=
  add_variant_blank_line_tolerance ["", " "] ["id,milestone_text", "1,x"] (by decide)

/-- C5 counterexample: the drop-variant does not skip leading blank lines — a
whitespace-only first line is parsed as the header, `milestone_text` is not
found, and the file is skipped, unlike the same file without that line. -/
theorem drop_variant_not_blank_line_tolerant :
    migrate_csv_file_lines [" ", "id,milestone_text", "1,x"] = none
    ∧ migrate_csv_file_lines ["id,milestone_text", "1,x"] = some [["id"], ["1"]] :=
  ⟨rfl, rfl⟩

/-- C9: a header holding exactly one of the two target columns is not treated
as already migrated — the already-done check needs both names — so the
add-variant proceeds and appends both, leaving a duplicated name in the
written header.  Rows are assumed no longer than the header so that the write
itself does not raise. -/
theorem add_variant_single_target_duplicates_header
    (header : List String) (rest : List (List String))
    (hx : ("action" ∈ header ∧ "is_milestone" ∉ header)
      ∨ ("is_milestone" ∈ header ∧ "action" ∉ header))
    (hlen : ∀ r ∈ rest, r.length ≤ header.length) :
    ∃ tailRows,
      migrate_sessions_rows (header :: rest) =
        .written ((header ++ ["action", "is_milestone"]) :: tailRows)
      ∧ ¬(header ++ ["action", "is_milestone"]).Nodup := by
  have hne : header ≠ [] := by
    rcases hx with ⟨h1, _⟩ | ⟨h1, _⟩ <;> exact List.ne_nil_of_mem h1
  have hguard : ¬("action" ∈ header ∧ "is_milestone" ∈ header) := by
    rcases hx with ⟨_, h2⟩ | ⟨_, h2⟩ <;> exact fun hc => h2 (by tauto)
  have hfil : ((header :: rest).filter (fun r => !r.isEmpty)) =
      header :: rest.filter (fun r => !r.isEmpty) := by
    rw [List.filter_cons, if_pos (by simpa using hne)]
  refine ⟨((header :: rest).filter (fun r => !r.isEmpty)).map
    (fun r => renderDictRow (header ++ ["action", "is_milestone"])
      (transformRow (mkDict header r))), ?_, ?_⟩
  · rw [migrate_sessions_rows, if_neg hguard, if_neg, if_neg]
    · intro hc
      rw [List.any_eq_true] at hc
      obtain ⟨r, hr, hlt⟩ := hc
      rw [hfil] at hr
      rcases List.mem_cons.mp hr with hr | hr
      · subst hr
        simp at hlt
      · have := hlen r (List.mem_of_mem_filter hr)
        simp at hlt
        omega
    · rw [hfil]
      simp
  · intro hnd
    rw [List.nodup_append] at hnd
    obtain ⟨-, -, hdisj⟩ := hnd
    rcases hx with ⟨h1, -⟩ | ⟨h1, -⟩
    · exact hdisj h1 (by simp)
    · exact hdisj h1 (by simp)

/-- C9 witness: a header with `action` but not `is_milestone` proceeds and
ends with two `action` columns. -/
theorem add_variant_single_target_duplicates_header_witness :
    ∃ tailRows,
      migrate_sessions_rows [["id", "action"], ["1", "x"]] =
        .written ((["id", "action"] ++ ["action", "is_milestone"]) :: tailRows)
      ∧ ¬(["id", "action"] ++ ["action", "is_milestone"]).Nodup :=
  add_variant_single_target_duplicates_header ["id", "action"] [["1", "x"]]
    (Or.inl ⟨by decide, by decide⟩) (by decide)

/-! ## Round trip of the CSV writer and reader

Single-step reductions of the reader on the characters the writer can emit,
then consumption lemmas for one field, one record, and the whole file. -/

theorem pAux_comma (rest : List Char) (field b rec) :
    pAux (',' :: rest) .plain field b rec = pAux rest .plain [] false (rec ++ [field]) := rfl

theorem pAux_crlf (rest : List Char) (field b rec) :
    pAux ('\r' :: '\n' :: rest) .plain field b rec =
      emitRec rec field b :: pAux rest .plain [] false [] := rfl

theorem pAux_open_quote (rest : List Char) (rec) :
    pAux ('"' :: rest) .plain [] false rec = pAux rest .quoted [] true rec := rfl

theorem pAux_quoted_quote (rest : List Char) (field b rec) :
    pAux ('"' :: rest) .quoted field b rec = pAux rest .quoteSeen field true rec := rfl

theorem pAux_seen_quote (rest : List Char) (field b rec) :
    pAux ('"' :: rest) .quoteSeen field b rec =
      pAux rest .quoted (field ++ ['"']) true rec := rfl

theorem pAux_close_comma (rest : List Char) (field b rec) :
    pAux ('"' :: ',' :: rest) .quoted field b rec =
      pAux rest .plain [] false (rec ++ [field]) := rfl

theorem pAux_close_crlf (rest : List Char) (field b rec) :
    pAux ('"' :: '\r' :: '\n' :: rest) .quoted field b rec =
      (rec ++ [field]) :: pAux rest .plain [] false [] := rfl

theorem pAux_plain_char (c : Char) (rest : List Char) (field b rec)
    (h1 : c ≠ ',') (h2 : c ≠ '\r') (h3 : c ≠ '\n') (h4 : c ≠ '"') :
    pAux (c :: rest) .plain field b rec = pAux rest .plain (field ++ [c]) true rec := by
  simp only [pAux]
  rw [if_neg h1, if_neg h2, if_neg h3, if_neg h4]

theorem pAux_quoted_char (c : Char) (rest : List Char) (field b rec) (h : c ≠ '"') :
    pAux (c :: rest) .quoted field b rec = pAux rest .quoted (field ++ [c]) true rec := by
  simp only [pAux]
  rw [if_neg h]

theorem pAux_no_special (f : List Char) (hf : ∀ c ∈ f, isSpecialChar c = false) :
    ∀ cs field b rec, pAux (f ++ cs) .plain field b rec =
      pAux cs .plain (field ++ f) (b || !f.isEmpty) rec := by
  induction f with
  | nil => intro cs field b rec; simp
  | cons c t ih =>
    intro cs field b rec
    have hc := hf c (List.mem_cons_self c t)
    simp only [isSpecialChar, Bool.or_eq_false_iff, decide_eq_false_iff_not] at hc
    obtain ⟨⟨⟨h1, h4⟩, h2⟩, h3⟩ := hc
    rw [List.cons_append, pAux_plain_char c _ _ _ _ h1 h2 h3 h4]
    rw [ih (fun x hx => hf x (List.mem_cons_of_mem c hx))]
    simp

theorem pAux_escQ (f : List Char) :
    ∀ cs field rec, pAux (escQ f ++ cs) .quoted field true rec =
      pAux cs .quoted (field ++ f) true rec := by
  induction f with
  | nil => intro cs field rec; simp [escQ]
  | cons c t ih =>
    intro cs field rec
    by_cases hc : c = '"'
    · subst hc
      rw [escQ, if_pos rfl]
      rw [List.cons_append, List.cons_append, pAux_quoted_quote, pAux_seen_quote, ih]
      simp
    · rw [escQ, if_neg hc, List.cons_append, pAux_quoted_char c _ _ _ _ hc, ih]
      simp

theorem needsQuote_data_ne_nil (s : String) (h : needsQuote s = true) : s.data ≠ [] := by
  intro hd
  rw [needsQuote, hd] at h
  simp at h

theorem pAux_field_comma (s : String) (rest : List Char) (rec) :
    pAux (renderFieldChars s ++ ',' :: rest) .plain [] false rec =
      pAux rest .plain [] false (rec ++ [s.data]) := by
  rw [renderFieldChars]
  by_cases hq : needsQuote s
  · rw [if_pos hq]
    have : ('"' :: (escQ s.data ++ ['"'])) ++ ',' :: rest =
        '"' :: (escQ s.data ++ ('"' :: ',' :: rest)) := by simp
    rw [this, pAux_open_quote, pAux_escQ, List.nil_append, pAux_close_comma]
  · rw [if_neg hq]
    have hall : ∀ c ∈ s.data, isSpecialChar c = false := by
      simp only [needsQuote, Bool.not_eq_true, List.any_eq_false] at hq
      exact hq
    rw [pAux_no_special s.data hall (',' :: rest), List.nil_append, pAux_comma]

theorem emitRec_of_field_ne (rec : List (List Char)) (f : List Char) (b : Bool)
    (h : f ≠ []) : emitRec rec f b = rec ++ [f] := by
  rw [emitRec, if_neg]
  intro hc
  exact h hc.2.1

theorem emitRec_of_rec_ne (rec : List (List Char)) (f : List Char) (b : Bool)
    (h : rec ≠ []) : emitRec rec f b = rec ++ [f] := by
  rw [emitRec, if_neg]
  intro hc
  exact h hc.1

theorem pAux_field_eol (s : String) (rest : List Char) (rec) (hrec : rec ≠ []) :
    pAux (renderFieldChars s ++ '\r' :: '\n' :: rest) .plain [] false rec =
      (rec ++ [s.data]) :: pAux rest .plain [] false [] := by
  rw [renderFieldChars]
  by_cases hq : needsQuote s
  · rw [if_pos hq]
    have : ('"' :: (escQ s.data ++ ['"'])) ++ '\r' :: '\n' :: rest =
        '"' :: (escQ s.data ++ ('"' :: '\r' :: '\n' :: rest)) := by simp
    rw [this, pAux_open_quote, pAux_escQ, List.nil_append, pAux_close_crlf]
  · rw [if_neg hq]
    have hall : ∀ c ∈ s.data, isSpecialChar c = false := by
      simp only [needsQuote, Bool.not_eq_true, List.any_eq_false] at hq
      exact hq
    rw [pAux_no_special s.data hall ('\r' :: '\n' :: rest), List.nil_append, pAux_crlf,
      emitRec_of_rec_ne _ _ _ hrec]

theorem pAux_single_field_eol (s : String) (rest : List Char) (h : s ≠ "") :
    pAux (renderFieldChars s ++ '\r' :: '\n' :: rest) .plain [] false [] =
      [s.data] :: pAux rest .plain [] false [] := by
  have hd : s.data ≠ [] := by
    intro hc
    exact h (by cases s; simp_all)
  rw [renderFieldChars]
  by_cases hq : needsQuote s
  · rw [if_pos hq]
    have : ('"' :: (escQ s.data ++ ['"'])) ++ '\r' :: '\n' :: rest =
        '"' :: (escQ s.data ++ ('"' :: '\r' :: '\n' :: rest)) := by simp
    rw [this, pAux_open_quote, pAux_escQ, List.nil_append, pAux_close_crlf, List.nil_append]
  · rw [if_neg hq]
    have hall : ∀ c ∈ s.data, isSpecialChar c = false := by
      simp only [needsQuote, Bool.not_eq_true, List.any_eq_false] at hq
      exact hq
    rw [pAux_no_special s.data hall ('\r' :: '\n' :: rest), List.nil_append, pAux_crlf,
      emitRec_of_field_ne _ _ _ hd, List.nil_append]

theorem pAux_fields_mid (fs : List String) (hfs : fs ≠ []) :
    ∀ (rest : List Char) rec, rec ≠ [] →
      pAux (joinComma (fs.map renderFieldChars) ++ '\r' :: '\n' :: rest) .plain [] false rec =
        (rec ++ fs.map (fun s => s.data)) :: pAux rest .plain [] false [] := by
  induction fs with
  | nil => exact absurd rfl hfs
  | cons f t ih =>
    intro rest rec hrec
    match t with
    | [] =>
      rw [List.map_cons, List.map_nil, joinComma, pAux_field_eol f rest rec hrec]
      simp
    | g :: t2 =>
      rw [List.map_cons, List.map_cons, joinComma]
      have : (renderFieldChars f ++ ',' :: joinComma (renderFieldChars g ::
          List.map renderFieldChars t2)) ++ '\r' :: '\n' :: rest =
          renderFieldChars f ++ ',' :: (joinComma (renderFieldChars g ::
          List.map renderFieldChars t2) ++ '\r' :: '\n' :: rest) := by simp
      rw [this, pAux_field_comma]
      rw [show (renderFieldChars g :: List.map renderFieldChars t2) =
        (g :: t2).map renderFieldChars from rfl]
      rw [ih (by simp) rest (rec ++ [f.data]) (by simp)]
      simp

theorem pAux_row (r : List String) (rest : List Char) :
    pAux (renderRowChars r ++ rest) .plain [] false [] =
      r.map (fun s => s.data) :: pAux rest .plain [] false [] := by
  match r with
  | [] => rfl
  | [s] =>
    by_cases hs : s = ""
    · subst hs
      rfl
    · rw [renderRowChars, if_neg (by simpa using hs)]
      rw [List.map_cons, List.map_nil, joinComma]
      have : (renderFieldChars s ++ ['\r', '\n']) ++ rest =
          renderFieldChars s ++ '\r' :: '\n' :: rest := by simp
      rw [this, pAux_single_field_eol s rest hs]
      rfl
  | f :: g :: t =>
    rw [renderRowChars, if_neg (by simp)]
    rw [List.map_cons, List.map_cons, joinComma]
    have : ((renderFieldChars f ++ ',' :: joinComma (renderFieldChars g ::
        List.map renderFieldChars t)) ++ ['\r', '\n']) ++ rest =
        renderFieldChars f ++ ',' :: (joinComma (renderFieldChars g ::
        List.map renderFieldChars t) ++ '\r' :: '\n' :: rest) := by simp
    rw [this, pAux_field_comma]
    rw [show (renderFieldChars g :: List.map renderFieldChars t) =
      (g :: t).map renderFieldChars from rfl]
    rw [List.nil_append, pAux_fields_mid (g :: t) (by simp) rest [f.data] (by simp)]
    simp

theorem pAux_render (rows : List (List String)) :
    pAux (csvRenderChars rows) .plain [] false [] =
      rows.map (fun r => r.map (fun s => s.data)) := by
  induction rows with
  | nil => rfl
  | cons r rs ih =>
    rw [show csvRenderChars (r :: rs) = renderRowChars r ++ csvRenderChars rs from by
      simp [csvRenderChars]]
    rw [pAux_row r (csvRenderChars rs), ih]
    rfl

/-- C8: the writer and the reader are inverse on logical rows — re-reading any
written table with the same CSV rules recovers exactly the rows that were
written, for arbitrary field contents (delimiters, quotes and newlines are
quoted, embedded quotes doubled). -/
theorem csv_write_read_round_trip (rows : List (List String)) :
    csvParse (csvRender rows) = rows := by
  show (pAux (csvRenderChars rows) .plain [] false []).map
    (fun r => r.map fun f => (⟨f⟩ : String)) = rows
  rw [pAux_render]
  rw [List.map_map]
  have hcomp : ((fun f : List Char => (⟨f⟩ : String)) ∘ (fun s : String => s.data)) = id := by
    funext s
    rfl
  have : ((fun r : List (List Char) => r.map fun f => (⟨f⟩ : String)) ∘
      (fun r : List String => r.map (fun s => s.data))) = id := by
    funext r
    show (r.map (fun s => s.data)).map (fun f => (⟨f⟩ : String)) = r
    rw [List.map_map, hcomp, List.map_id]
  rw [this, List.map_id]

end JujuSwift
